import Mathlib

/-!
Verification development for the `ilock` package (an intention lock).

The lock state is a single 64-bit word packing four 16-bit counters:

    |63      48|47      32|31     16|15      0|
     \   IX   / \   IS   / \   S   / \   X   /

We shallowly embed the pure state manipulation of the Go source
(`ilock.go`) into Lean.  Machine `uint64` values are modelled as `Nat`
together with explicit `% 2 ^ 64` wherever Go's wraparound arithmetic
can matter; the Go bitwise operators `&`, `|`, `^x` (complement), `<<`,
`>>` become `&&&`, `|||`, `compl64`, `<<<`, `>>>`.

The successful iteration of each compare-and-swap loop in the source is
embedded as a pure function on the state word: `registerX` etc. return
the updated word together with the boolean the Go method returns, and
`XUnlock` etc. return the updated word together with a boolean that is
`true` exactly when the method invokes `Broadcast` on the condition
variable.
-/

namespace ILock

/-- Go's unary bitwise complement `^m` at type `uint64`. -/
def compl64 (m : Nat) : Nat := m ^^^ (2 ^ 64 - 1)

def xOffset : Nat := 0

def xMask : Nat := (1 <<< 16) - 1

def sOffset : Nat := 16

def sMask : Nat := ((1 <<< 32) - 1) &&& compl64 ((1 <<< 16) - 1)

def isOffset : Nat := 32

def isMask : Nat := ((1 <<< 48) - 1) &&& compl64 ((1 <<< 32) - 1)

def ixOffset : Nat := 48

def ixMask : Nat := 0xffffffffffffffff &&& compl64 ((1 <<< 48) - 1)

def maxHolders : Nat := (1 <<< 16) - 1

def extractX (state : Nat) : Nat := (state &&& xMask) >>> xOffset

/-- `setX(state, val)`: Go computes `(state & ^xMask) | (val << xOffset)`
in `uint64`, so the shifted value wraps modulo `2 ^ 64`. -/
def setX (state val : Nat) : Nat :=
  (state &&& compl64 xMask) ||| ((val <<< xOffset) % 2 ^ 64)

def extractS (state : Nat) : Nat := (state &&& sMask) >>> sOffset

def setS (state val : Nat) : Nat :=
  (state &&& compl64 sMask) ||| ((val <<< sOffset) % 2 ^ 64)

def extractIX (state : Nat) : Nat := (state &&& ixMask) >>> ixOffset

def setIX (state val : Nat) : Nat :=
  (state &&& compl64 ixMask) ||| ((val <<< ixOffset) % 2 ^ 64)

def extractIS (state : Nat) : Nat := (state &&& isMask) >>> isOffset

def setIS (state val : Nat) : Nat :=
  (state &&& compl64 isMask) ||| ((val <<< isOffset) % 2 ^ 64)

def compatableWithX (state : Nat) : Bool := state == 0

def compatableWithS (state : Nat) : Bool :=
  extractX state == 0 && extractIX state == 0

def compatableWithIX (state : Nat) : Bool :=
  extractX state == 0 && extractS state == 0

def compatableWithIS (state : Nat) : Bool := extractX state == 0

/-- The state word of a freshly constructed `Mutex` (`New` leaves the
`state` field at Go's zero value). -/
def New : Nat := 0

/-- Effect of the successful CAS iteration in `registerIS`: the IS field
receives `extractIS state + 1`, and the method returns whether the state
word observed *before* the increment was compatible with IS. -/
def registerIS (state : Nat) : Nat × Bool :=
  (setIS state (extractIS state + 1), compatableWithIS state)

def registerIX (state : Nat) : Nat × Bool :=
  (setIX state (extractIX state + 1), compatableWithIX state)

def registerS (state : Nat) : Nat × Bool :=
  (setS state (extractS state + 1), compatableWithS state)

def registerX (state : Nat) : Nat × Bool :=
  (setX state (extractX state + 1), compatableWithX state)

/-- Go `uint64` subtraction of one: `a - 1` wraps modulo `2 ^ 64`. -/
def usub1 (a : Nat) : Nat := (a + (2 ^ 64 - 1)) % 2 ^ 64

/-- Effect of `ISUnlock` on the state word: `val := extractIS(state) - 1`
in `uint64`, the IS field is overwritten with `val`, and `Broadcast` is
invoked (second component `true`) iff `val == 0`. -/
def ISUnlock (state : Nat) : Nat × Bool :=
  let val := usub1 (extractIS state)
  (setIS state val, val == 0)

def IXUnlock (state : Nat) : Nat × Bool :=
  let val := usub1 (extractIX state)
  (setIX state val, val == 0)

def SUnlock (state : Nat) : Nat × Bool :=
  let val := usub1 (extractS state)
  (setS state val, val == 0)

def XUnlock (state : Nat) : Nat × Bool :=
  let val := usub1 (extractX state)
  (setX state val, val == 0)

/-- The four lock modes. -/
inductive Mode : Type
  | X
  | S
  | IX
  | IS
deriving DecidableEq

/-- Dispatch `extract` by mode. -/
def extractMode : Mode → Nat → Nat
  | .X => extractX
  | .S => extractS
  | .IX => extractIX
  | .IS => extractIS

/-- Dispatch the compatibility check by requested mode. -/
def compatMode : Mode → Nat → Bool
  | .X => compatableWithX
  | .S => compatableWithS
  | .IX => compatableWithIX
  | .IS => compatableWithIS

/-- Dispatch the unlock step by mode. -/
def unlockMode : Mode → Nat → Nat × Bool
  | .X => XUnlock
  | .S => SUnlock
  | .IX => IXUnlock
  | .IS => ISUnlock

/-- Dispatch the register step by mode. -/
def registerMode : Mode → Nat → Nat × Bool
  | .X => registerX
  | .S => registerS
  | .IX => registerIX
  | .IS => registerIS

/-!
Abstract state machine over the four-counter vector.  A state is the
vector of the four holder counters; acquisition fires only from a
compatible state and increments the requested mode's counter, release
fires only when the counter is positive and decrements it.  The
compatibility conditions are the ones computed by `compatableWithX`,
`compatableWithS`, `compatableWithIX`, `compatableWithIS` on the packed
word, restated on the counter vector (the bridge lemmas
`compat_pack_X` … `compat_pack_IS` below prove the correspondence).
-/

/-- The four-counter vector: holder counts for X, S, IS and IX. -/
structure Counts : Type where
  x : Nat
  s : Nat
  is : Nat
  ix : Nat
deriving DecidableEq

/-- Pack a counter vector into the 64-bit layout of `Mutex.state`
(X in bits 0-15, S in 16-31, IS in 32-47, IX in 48-63). -/
def pack (c : Counts) : Nat :=
  c.x + c.s * 2 ^ 16 + c.is * 2 ^ 32 + c.ix * 2 ^ 48

def Counts.get : Counts → Mode → Nat
  | c, .X => c.x
  | c, .S => c.s
  | c, .IX => c.ix
  | c, .IS => c.is

def Counts.inc : Counts → Mode → Counts
  | c, .X => { c with x := c.x + 1 }
  | c, .S => { c with s := c.s + 1 }
  | c, .IX => { c with ix := c.ix + 1 }
  | c, .IS => { c with is := c.is + 1 }

def Counts.dec : Counts → Mode → Counts
  | c, .X => { c with x := c.x - 1 }
  | c, .S => { c with s := c.s - 1 }
  | c, .IX => { c with ix := c.ix - 1 }
  | c, .IS => { c with is := c.is - 1 }

/-- Compatibility of a requested mode with the current counter vector,
as computed by the `compatableWith…` checks of the source: X needs the
whole word to be zero, S needs the X and IX counters zero, IX needs the
X and S counters zero, IS needs the X counter zero. -/
def Counts.compat : Counts → Mode → Prop
  | c, .X => c.x = 0 ∧ c.s = 0 ∧ c.ix = 0 ∧ c.is = 0
  | c, .S => c.x = 0 ∧ c.ix = 0
  | c, .IX => c.x = 0 ∧ c.s = 0
  | c, .IS => c.x = 0

/-- One transition of the lock: a compatible acquisition or a release of
a currently held mode. -/
inductive Step : Counts → Counts → Prop
  | acquire (m : Mode) (c : Counts) : c.compat m → Step c (c.inc m)
  | release (m : Mode) (c : Counts) : 1 ≤ c.get m → Step c (c.dec m)

/-- States reachable from the empty (freshly created) lock. -/
inductive Reachable : Counts → Prop
  | init : Reachable ⟨0, 0, 0, 0⟩
  | next {c c2 : Counts} : Reachable c → Step c c2 → Reachable c2

/-- The multi-granularity locking invariant on a counter vector. -/
def Invariant (c : Counts) : Prop :=
  c.x ≤ 1 ∧
  (c.x = 1 → c.s = 0 ∧ c.is = 0 ∧ c.ix = 0) ∧
  (0 < c.s → c.x = 0 ∧ c.ix = 0) ∧
  (0 < c.ix → c.x = 0 ∧ c.s = 0) ∧
  (0 < c.is → c.x = 0)

/-- The same invariant read off a packed state word. -/
def WordInvariant (w : Nat) : Prop :=
  extractX w ≤ 1 ∧
  (extractX w = 1 → extractS w = 0 ∧ extractIS w = 0 ∧ extractIX w = 0) ∧
  (0 < extractS w → extractX w = 0 ∧ extractIX w = 0) ∧
  (0 < extractIX w → extractX w = 0 ∧ extractS w = 0) ∧
  (0 < extractIS w → extractX w = 0)

/-! ### Arithmetic characterization of the packed-word operations -/

theorem and_shifted_mask (w k n : Nat) :
    w &&& ((2 ^ n - 1) <<< k) = w / 2 ^ k % 2 ^ n * 2 ^ k := by
  have h1 : w / 2 ^ k % 2 ^ n * 2 ^ k = ((w >>> k) % 2 ^ n) <<< k := by
    rw [Nat.shiftLeft_eq, Nat.shiftRight_eq_div_pow]
  rw [h1]
  apply Nat.eq_of_testBit_eq
  intro i
  rw [Nat.testBit_and, Nat.testBit_shiftLeft, Nat.testBit_shiftLeft,
    Nat.testBit_two_pow_sub_one, Nat.testBit_mod_two_pow, Nat.testBit_shiftRight]
  by_cases hik : k ≤ i
  · have he : k + (i - k) = i := by omega
    rw [he]
    cases w.testBit i <;> simp [hik]
  · simp [hik]

theorem xMask_shift : xMask = (2 ^ 16 - 1) <<< 0 := by decide

theorem sMask_shift : sMask = (2 ^ 16 - 1) <<< 16 := by decide

theorem isMask_shift : isMask = (2 ^ 16 - 1) <<< 32 := by decide

theorem ixMask_shift : ixMask = (2 ^ 16 - 1) <<< 48 := by decide

theorem extractX_eq (w : Nat) : extractX w = w % 2 ^ 16 := by
  simp only [extractX, xOffset, xMask_shift, and_shifted_mask,
    Nat.shiftRight_eq_div_pow]
  omega

theorem extractS_eq (w : Nat) : extractS w = w / 2 ^ 16 % 2 ^ 16 := by
  simp only [extractS, sOffset, sMask_shift, and_shifted_mask,
    Nat.shiftRight_eq_div_pow]
  omega

theorem extractIS_eq (w : Nat) : extractIS w = w / 2 ^ 32 % 2 ^ 16 := by
  simp only [extractIS, isOffset, isMask_shift, and_shifted_mask,
    Nat.shiftRight_eq_div_pow]
  omega

theorem extractIX_eq (w : Nat) : extractIX w = w / 2 ^ 48 % 2 ^ 16 := by
  simp only [extractIX, ixOffset, ixMask_shift, and_shifted_mask,
    Nat.shiftRight_eq_div_pow]
  omega

theorem set_arith (w v k : Nat) (hw : w < 2 ^ 64) (hv : v < 2 ^ 16)
    (hk : k + 16 ≤ 64) :
    (w &&& compl64 ((2 ^ 16 - 1) <<< k)) ||| ((v <<< k) % 2 ^ 64) =
      w % 2 ^ k + 2 ^ k * v + 2 ^ (k + 16) * (w / 2 ^ (k + 16)) := by
  have hvk : v <<< k < 2 ^ 64 := by
    rw [Nat.shiftLeft_eq]
    calc v * 2 ^ k < 2 ^ 16 * 2 ^ k :=
      (Nat.mul_lt_mul_right (Nat.two_pow_pos k)).mpr hv
    _ = 2 ^ (16 + k) := by rw [Nat.pow_add]
    _ ≤ 2 ^ 64 := Nat.pow_le_pow_right (by norm_num) (by omega)
  rw [Nat.mod_eq_of_lt hvk]
  have h1 : w % 2 ^ k < 2 ^ k := Nat.mod_lt _ (Nat.two_pow_pos k)
  have hinner : 2 ^ k * v + w % 2 ^ k = 2 ^ k * v ||| w % 2 ^ k :=
    Nat.mul_add_lt_is_or h1 v
  have hinner_lt : 2 ^ k * v + w % 2 ^ k < 2 ^ (k + 16) := by
    have h3 : (2:Nat) ^ k * v + 2 ^ k = 2 ^ k * (v + 1) := by ring
    have h4 : (2:Nat) ^ k * (v + 1) ≤ 2 ^ k * 2 ^ 16 :=
      Nat.mul_le_mul_left _ (by omega)
    have h5 : (2:Nat) ^ k * 2 ^ 16 = 2 ^ (k + 16) := by rw [Nat.pow_add]
    omega
  have houter : 2 ^ (k + 16) * (w / 2 ^ (k + 16)) + (2 ^ k * v + w % 2 ^ k)
      = 2 ^ (k + 16) * (w / 2 ^ (k + 16)) ||| (2 ^ k * v + w % 2 ^ k) :=
    Nat.mul_add_lt_is_or hinner_lt _
  have hre : w % 2 ^ k + 2 ^ k * v + 2 ^ (k + 16) * (w / 2 ^ (k + 16))
      = 2 ^ (k + 16) * (w / 2 ^ (k + 16)) + (2 ^ k * v + w % 2 ^ k) := by ring
  rw [hre, houter, hinner]
  have hdiv : w / 2 ^ (k + 16) = w >>> (k + 16) :=
    (Nat.shiftRight_eq_div_pow w (k + 16)).symm
  rw [hdiv]
  have h65 : ∀ m, Nat.testBit 65535 m = decide (m < 16) := by
    intro m
    have h := Nat.testBit_two_pow_sub_one 16 m
    norm_num at h
    exact h
  have hmulpow : ∀ (a m j : Nat),
      (a * 2 ^ m).testBit j = (decide (j ≥ m) && a.testBit (j - m)) := by
    intro a m j
    rw [Nat.mul_comm]
    exact Nat.testBit_mul_pow_two
  apply Nat.eq_of_testBit_eq
  intro i
  simp only [Nat.testBit_or, Nat.testBit_and, compl64, Nat.testBit_xor,
    Nat.testBit_two_pow_sub_one, Nat.testBit_shiftLeft, Nat.testBit_mod_two_pow,
    Nat.testBit_mul_pow_two, Nat.testBit_shiftRight, Nat.shiftLeft_eq,
    hmulpow, h65]
  rcases Nat.lt_or_ge i 64 with h64 | h64
  · rcases Nat.lt_or_ge i k with hik | hik
    · have e1 : ¬ (i ≥ k) := by omega
      have e2 : ¬ (i ≥ k + 16) := by omega
      simp [e1, e2, hik, h64]
    · rcases Nat.lt_or_ge i (k + 16) with hik2 | hik2
      · have e1 : i ≥ k := hik
        have e2 : ¬ (i ≥ k + 16) := by omega
        have e3 : i - k < 16 := by omega
        have e4 : ¬ (i < k) := by omega
        simp [e1, e2, e3, e4, h64]
      · have e1 : i ≥ k := hik
        have e2 : i ≥ k + 16 := hik2
        have e3 : ¬ (i - k < 16) := by omega
        have e4 : ¬ (i < k) := by omega
        have e5 : k + 16 + (i - (k + 16)) = i := by omega
        have e6 : v.testBit (i - k) = false :=
          Nat.testBit_lt_two_pow (lt_of_lt_of_le hv
            (Nat.pow_le_pow_right (by norm_num) (by omega)))
        simp [e1, e2, e3, e4, e5, e6, h64]
  · have e1 : w.testBit i = false :=
      Nat.testBit_lt_two_pow (lt_of_lt_of_le hw
        (Nat.pow_le_pow_right (by norm_num) h64))
    have e2 : v.testBit (i - k) = false :=
      Nat.testBit_lt_two_pow (lt_of_lt_of_le hv
        (Nat.pow_le_pow_right (by norm_num) (by omega)))
    have e5 : k + 16 + (i - (k + 16)) = i := by omega
    have e6 : ¬ (i < 64) := by omega
    simp [e1, e2, e5, e6]

theorem setX_eq (w v : Nat) (hw : w < 2 ^ 64) (hv : v < 2 ^ 16) :
    setX w v = v + 2 ^ 16 * (w / 2 ^ 16) := by
  have h := set_arith w v 0 hw hv (by omega)
  simp only [setX, xOffset, xMask_shift]
  rw [h]
  omega

theorem setS_eq (w v : Nat) (hw : w < 2 ^ 64) (hv : v < 2 ^ 16) :
    setS w v = w % 2 ^ 16 + 2 ^ 16 * v + 2 ^ 32 * (w / 2 ^ 32) := by
  have h := set_arith w v 16 hw hv (by omega)
  simp only [setS, sOffset, sMask_shift]
  rw [h]

theorem setIS_eq (w v : Nat) (hw : w < 2 ^ 64) (hv : v < 2 ^ 16) :
    setIS w v = w % 2 ^ 32 + 2 ^ 32 * v + 2 ^ 48 * (w / 2 ^ 48) := by
  have h := set_arith w v 32 hw hv (by omega)
  simp only [setIS, isOffset, isMask_shift]
  rw [h]

theorem setIX_eq (w v : Nat) (hw : w < 2 ^ 64) (hv : v < 2 ^ 16) :
    setIX w v = w % 2 ^ 48 + 2 ^ 48 * v := by
  have h := set_arith w v 48 hw hv (by omega)
  simp only [setIX, ixOffset, ixMask_shift]
  rw [h]
  have : w / 2 ^ 64 = 0 := Nat.div_eq_of_lt hw
  omega

theorem setX_extracts (w v : Nat) (hw : w < 2 ^ 64) (hv : v < 2 ^ 16) :
    extractX (setX w v) = v ∧ extractS (setX w v) = extractS w ∧
    extractIS (setX w v) = extractIS w ∧ extractIX (setX w v) = extractIX w := by
  rw [setX_eq w v hw hv]
  simp only [extractX_eq, extractS_eq, extractIS_eq, extractIX_eq]
  omega

theorem setS_extracts (w v : Nat) (hw : w < 2 ^ 64) (hv : v < 2 ^ 16) :
    extractS (setS w v) = v ∧ extractX (setS w v) = extractX w ∧
    extractIS (setS w v) = extractIS w ∧ extractIX (setS w v) = extractIX w := by
  rw [setS_eq w v hw hv]
  simp only [extractX_eq, extractS_eq, extractIS_eq, extractIX_eq]
  omega

theorem setIS_extracts (w v : Nat) (hw : w < 2 ^ 64) (hv : v < 2 ^ 16) :
    extractIS (setIS w v) = v ∧ extractX (setIS w v) = extractX w ∧
    extractS (setIS w v) = extractS w ∧ extractIX (setIS w v) = extractIX w := by
  rw [setIS_eq w v hw hv]
  simp only [extractX_eq, extractS_eq, extractIS_eq, extractIX_eq]
  omega

theorem setIX_extracts (w v : Nat) (hw : w < 2 ^ 64) (hv : v < 2 ^ 16) :
    extractIX (setIX w v) = v ∧ extractX (setIX w v) = extractX w ∧
    extractS (setIX w v) = extractS w ∧ extractIS (setIX w v) = extractIS w := by
  rw [setIX_eq w v hw hv]
  simp only [extractX_eq, extractS_eq, extractIS_eq, extractIX_eq]
  omega

theorem extractX_lt (w : Nat) : extractX w < 2 ^ 16 := by
  rw [extractX_eq]; omega

theorem extractS_lt (w : Nat) : extractS w < 2 ^ 16 := by
  rw [extractS_eq]; omega

theorem extractIS_lt (w : Nat) : extractIS w < 2 ^ 16 := by
  rw [extractIS_eq]; omega

theorem extractIX_lt (w : Nat) : extractIX w < 2 ^ 16 := by
  rw [extractIX_eq]; omega

/-! ### Bridge between the counter-vector model and the packed word -/

theorem compat_pack_X (c : Counts) (hx : c.x < 2 ^ 16) (hs : c.s < 2 ^ 16)
    (his : c.is < 2 ^ 16) (hix : c.ix < 2 ^ 16) :
    (compatableWithX (pack c) = true) ↔ c.compat Mode.X := by
  simp only [pack, compatableWithX, beq_iff_eq, Counts.compat]
  omega

theorem compat_pack_S (c : Counts) (hx : c.x < 2 ^ 16) (hs : c.s < 2 ^ 16)
    (his : c.is < 2 ^ 16) (hix : c.ix < 2 ^ 16) :
    (compatableWithS (pack c) = true) ↔ c.compat Mode.S := by
  simp only [pack, compatableWithS, Bool.and_eq_true, beq_iff_eq,
    extractX_eq, extractIX_eq, Counts.compat]
  omega

theorem compat_pack_IX (c : Counts) (hx : c.x < 2 ^ 16) (hs : c.s < 2 ^ 16)
    (his : c.is < 2 ^ 16) (hix : c.ix < 2 ^ 16) :
    (compatableWithIX (pack c) = true) ↔ c.compat Mode.IX := by
  simp only [pack, compatableWithIX, Bool.and_eq_true, beq_iff_eq,
    extractX_eq, extractS_eq, Counts.compat]
  omega

theorem compat_pack_IS (c : Counts) (hx : c.x < 2 ^ 16) (hs : c.s < 2 ^ 16)
    (his : c.is < 2 ^ 16) (hix : c.ix < 2 ^ 16) :
    (compatableWithIS (pack c) = true) ↔ c.compat Mode.IS := by
  simp only [pack, compatableWithIS, beq_iff_eq, extractX_eq, Counts.compat]
  omega

/-! ### The claims -/

/-- C1: for every 64-bit packed state word, the compatibility check for
each of the four requested modes is a pure function of the word matching
the section 4.1 matrix exactly: a requested X is compatible iff all four
counters are zero; a requested S is compatible iff the X and IX counters
are zero; a requested IX is compatible iff the X and S counters are
zero; a requested IS is compatible iff the X counter is zero.  This
settles all 16 (held mode with positive count, requested mode)
combinations at once. -/
theorem c1_compatibility_matrix (w : Nat) (hw : w < 2 ^ 64) :
    (compatableWithX w = true ↔
      extractX w = 0 ∧ extractS w = 0 ∧ extractIX w = 0 ∧ extractIS w = 0) ∧
    (compatableWithS w = true ↔ extractX w = 0 ∧ extractIX w = 0) ∧
    (compatableWithIX w = true ↔ extractX w = 0 ∧ extractS w = 0) ∧
    (compatableWithIS w = true ↔ extractX w = 0) := by
  simp only [compatableWithX, compatableWithS, compatableWithIX,
    compatableWithIS, Bool.and_eq_true, beq_iff_eq, extractX_eq, extractS_eq,
    extractIX_eq, extractIS_eq]
  refine ⟨?_, ?_, ?_, ?_⟩ <;> first | trivial | omega

theorem c1_compatibility_matrix_witness :
    (compatableWithX 65536 = true ↔
      extractX 65536 = 0 ∧ extractS 65536 = 0 ∧ extractIX 65536 = 0 ∧
      extractIS 65536 = 0) ∧
    (compatableWithS 65536 = true ↔ extractX 65536 = 0 ∧ extractIX 65536 = 0) ∧
    (compatableWithIX 65536 = true ↔ extractX 65536 = 0 ∧ extractS 65536 = 0) ∧
    (compatableWithIS 65536 = true ↔ extractX 65536 = 0) :=
  c1_compatibility_matrix 65536 (by norm_num)

/-- C2: in the state machine over the four-counter vector that starts
empty, acquires a mode only from a compatible state and releases only a
held mode, every reachable state satisfies the multi-granularity locking
invariant: the X counter is at most 1; X held excludes everything; S
excludes X and IX; IX excludes X and S; IS excludes X. -/
theorem c2_reachable_invariant (c : Counts) (h : Reachable c) : Invariant c := by
  induction h with
  | init => simp [Invariant]
  | next hr hs ih =>
    cases hs with
    | acquire m c hc =>
      cases m <;>
        simp only [Counts.compat, Counts.inc, Invariant] at hc ih ⊢ <;>
        omega
    | release m c hg =>
      cases m <;>
        simp only [Counts.get, Counts.dec, Invariant] at hg ih ⊢ <;>
        omega

theorem c2_reachable_invariant_witness : Invariant ⟨0, 0, 0, 0⟩ :=
  c2_reachable_invariant ⟨0, 0, 0, 0⟩ Reachable.init

/-- C8: a freshly created lock starts fully unlocked: the packed state
word is zero, all four counters decode to zero, and all four modes are
immediately compatible. -/
theorem c8_new_unlocked :
    New = 0 ∧ extractX New = 0 ∧ extractS New = 0 ∧ extractIS New = 0 ∧
    extractIX New = 0 ∧ compatableWithX New = true ∧
    compatableWithS New = true ∧ compatableWithIX New = true ∧
    compatableWithIS New = true := by decide

/-- C3: the code does not report a usage violation on double release.
Releasing IS on a freshly created lock (IS counter zero) silently wraps
the `uint64` subtraction: the resulting word sets the IS *and* IX fields
to 65535, no broadcast is performed, and no error is signalled; likewise
releasing X on a fresh lock sets all four fields to 65535.  This
contradicts the spec, which requires a fatal, distinguishable
contract-violation signal. -/
theorem c3_double_release_wraps :
    extractIS (ISUnlock New).1 = 65535 ∧ extractIX (ISUnlock New).1 = 65535 ∧
    (ISUnlock New).2 = false ∧
    extractX (XUnlock New).1 = 65535 ∧ extractS (XUnlock New).1 = 65535 ∧
    extractIS (XUnlock New).1 = 65535 ∧ extractIX (XUnlock New).1 = 65535 ∧
    (XUnlock New).2 = false := by decide

/-- C4: the code does not signal capacity exhaustion.  Registering IS on
a word whose IS counter is already at `maxHolders` (65535) silently
wraps the 16-bit field: the IS counter becomes 0 and the overflow bit
lands in the IX field, which becomes 1.  The `maxHolders` constant is
defined in the source but never consulted. -/
theorem c4_capacity_overflow :
    maxHolders = 65535 ∧
    extractIS 281470681743360 = maxHolders ∧
    extractIS (registerIS 281470681743360).1 = 0 ∧
    extractIX (registerIS 281470681743360).1 = 1 ∧
    extractIX 281470681743360 = 0 := by decide

/-- C7: for every 64-bit word and every new counter value of at most
65535, the packed-state update for a mode round-trips (the mode decodes
to exactly the new value) and leaves the other three 16-bit fields
bit-for-bit unchanged; the fields sit at X bits 0-15, S bits 16-31,
IS bits 32-47, IX bits 48-63. -/
theorem c7_field_independence (w v : Nat) (hw : w < 2 ^ 64) (hv : v ≤ 65535) :
    (extractX (setX w v) = v ∧ extractS (setX w v) = extractS w ∧
      extractIS (setX w v) = extractIS w ∧ extractIX (setX w v) = extractIX w) ∧
    (extractS (setS w v) = v ∧ extractX (setS w v) = extractX w ∧
      extractIS (setS w v) = extractIS w ∧ extractIX (setS w v) = extractIX w) ∧
    (extractIS (setIS w v) = v ∧ extractX (setIS w v) = extractX w ∧
      extractS (setIS w v) = extractS w ∧ extractIX (setIS w v) = extractIX w) ∧
    (extractIX (setIX w v) = v ∧ extractX (setIX w v) = extractX w ∧
      extractS (setIX w v) = extractS w ∧ extractIS (setIX w v) = extractIS w) ∧
    (extractX w = w % 2 ^ 16 ∧ extractS w = w / 2 ^ 16 % 2 ^ 16 ∧
      extractIS w = w / 2 ^ 32 % 2 ^ 16 ∧ extractIX w = w / 2 ^ 48 % 2 ^ 16) :=
  have hv16 : v < 2 ^ 16 := by omega
  ⟨setX_extracts w v hw hv16, setS_extracts w v hw hv16,
    setIS_extracts w v hw hv16, setIX_extracts w v hw hv16,
    extractX_eq w, extractS_eq w, extractIS_eq w, extractIX_eq w⟩

theorem c7_field_independence_witness :
    (extractX (setX 4294901760 7) = 7 ∧
      extractS (setX 4294901760 7) = extractS 4294901760 ∧
      extractIS (setX 4294901760 7) = extractIS 4294901760 ∧
      extractIX (setX 4294901760 7) = extractIX 4294901760) ∧
    (extractS (setS 4294901760 7) = 7 ∧
      extractX (setS 4294901760 7) = extractX 4294901760 ∧
      extractIS (setS 4294901760 7) = extractIS 4294901760 ∧
      extractIX (setS 4294901760 7) = extractIX 4294901760) ∧
    (extractIS (setIS 4294901760 7) = 7 ∧
      extractX (setIS 4294901760 7) = extractX 4294901760 ∧
      extractS (setIS 4294901760 7) = extractS 4294901760 ∧
      extractIX (setIS 4294901760 7) = extractIX 4294901760) ∧
    (extractIX (setIX 4294901760 7) = 7 ∧
      extractX (setIX 4294901760 7) = extractX 4294901760 ∧
      extractS (setIX 4294901760 7) = extractS 4294901760 ∧
      extractIS (setIX 4294901760 7) = extractIS 4294901760) ∧
    (extractX 4294901760 = 4294901760 % 2 ^ 16 ∧
      extractS 4294901760 = 4294901760 / 2 ^ 16 % 2 ^ 16 ∧
      extractIS 4294901760 = 4294901760 / 2 ^ 32 % 2 ^ 16 ∧
      extractIX 4294901760 = 4294901760 / 2 ^ 48 % 2 ^ 16) :=
  c7_field_independence 4294901760 7 (by norm_num) (by norm_num)

/-- C5: for every mode whose counter is at least 1, the release step
decrements that counter by exactly one, leaves the other three counters
unchanged, and invokes the broadcast wakeup (the `Broadcast` call,
modelled by the second component) iff the counter reaches zero. -/
theorem c5_release_frame (w : Nat) (hw : w < 2 ^ 64) :
    (1 ≤ extractX w →
      extractX (XUnlock w).1 = extractX w - 1 ∧
      extractS (XUnlock w).1 = extractS w ∧
      extractIS (XUnlock w).1 = extractIS w ∧
      extractIX (XUnlock w).1 = extractIX w ∧
      ((XUnlock w).2 = true ↔ extractX w = 1)) ∧
    (1 ≤ extractS w →
      extractS (SUnlock w).1 = extractS w - 1 ∧
      extractX (SUnlock w).1 = extractX w ∧
      extractIS (SUnlock w).1 = extractIS w ∧
      extractIX (SUnlock w).1 = extractIX w ∧
      ((SUnlock w).2 = true ↔ extractS w = 1)) ∧
    (1 ≤ extractIS w →
      extractIS (ISUnlock w).1 = extractIS w - 1 ∧
      extractX (ISUnlock w).1 = extractX w ∧
      extractS (ISUnlock w).1 = extractS w ∧
      extractIX (ISUnlock w).1 = extractIX w ∧
      ((ISUnlock w).2 = true ↔ extractIS w = 1)) ∧
    (1 ≤ extractIX w →
      extractIX (IXUnlock w).1 = extractIX w - 1 ∧
      extractX (IXUnlock w).1 = extractX w ∧
      extractS (IXUnlock w).1 = extractS w ∧
      extractIS (IXUnlock w).1 = extractIS w ∧
      ((IXUnlock w).2 = true ↔ extractIX w = 1)) := by
  refine ⟨?_, ?_, ?_, ?_⟩ <;> intro h1
  · have ha := extractX_lt w
    have hval : usub1 (extractX w) = extractX w - 1 := by
      unfold usub1; omega
    have hfst : (XUnlock w).1 = setX w (extractX w - 1) := by
      show setX w (usub1 (extractX w)) = _
      rw [hval]
    have hsnd : (XUnlock w).2 = (extractX w - 1 == 0) := by
      show (usub1 (extractX w) == 0) = _
      rw [hval]
    obtain ⟨e1, e2, e3, e4⟩ := setX_extracts w (extractX w - 1) hw (by omega)
    rw [hfst, hsnd]
    exact ⟨e1, e2, e3, e4, by simp only [beq_iff_eq]; omega⟩
  · have ha := extractS_lt w
    have hval : usub1 (extractS w) = extractS w - 1 := by
      unfold usub1; omega
    have hfst : (SUnlock w).1 = setS w (extractS w - 1) := by
      show setS w (usub1 (extractS w)) = _
      rw [hval]
    have hsnd : (SUnlock w).2 = (extractS w - 1 == 0) := by
      show (usub1 (extractS w) == 0) = _
      rw [hval]
    obtain ⟨e1, e2, e3, e4⟩ := setS_extracts w (extractS w - 1) hw (by omega)
    rw [hfst, hsnd]
    exact ⟨e1, e2, e3, e4, by simp only [beq_iff_eq]; omega⟩
  · have ha := extractIS_lt w
    have hval : usub1 (extractIS w) = extractIS w - 1 := by
      unfold usub1; omega
    have hfst : (ISUnlock w).1 = setIS w (extractIS w - 1) := by
      show setIS w (usub1 (extractIS w)) = _
      rw [hval]
    have hsnd : (ISUnlock w).2 = (extractIS w - 1 == 0) := by
      show (usub1 (extractIS w) == 0) = _
      rw [hval]
    obtain ⟨e1, e2, e3, e4⟩ := setIS_extracts w (extractIS w - 1) hw (by omega)
    rw [hfst, hsnd]
    exact ⟨e1, e2, e3, e4, by simp only [beq_iff_eq]; omega⟩
  · have ha := extractIX_lt w
    have hval : usub1 (extractIX w) = extractIX w - 1 := by
      unfold usub1; omega
    have hfst : (IXUnlock w).1 = setIX w (extractIX w - 1) := by
      show setIX w (usub1 (extractIX w)) = _
      rw [hval]
    have hsnd : (IXUnlock w).2 = (extractIX w - 1 == 0) := by
      show (usub1 (extractIX w) == 0) = _
      rw [hval]
    obtain ⟨e1, e2, e3, e4⟩ := setIX_extracts w (extractIX w - 1) hw (by omega)
    rw [hfst, hsnd]
    exact ⟨e1, e2, e3, e4, by simp only [beq_iff_eq]; omega⟩

theorem c5_release_frame_witness :
    1 ≤ extractIS 4294967296 ∧
    (extractIS (ISUnlock 4294967296).1 = extractIS 4294967296 - 1 ∧
      extractX (ISUnlock 4294967296).1 = extractX 4294967296 ∧
      extractS (ISUnlock 4294967296).1 = extractS 4294967296 ∧
      extractIX (ISUnlock 4294967296).1 = extractIX 4294967296 ∧
      ((ISUnlock 4294967296).2 = true ↔ extractIS 4294967296 = 1)) :=
  ⟨by decide, (c5_release_frame 4294967296 (by norm_num)).2.2.1 (by decide)⟩

/-- C6 counterexample: from the state whose S counter is 65535 (which
*is* compatible with a requested S), the acquire step does not increment
the S counter to 65536; the field wraps to 0 and the IS field changes,
refuting the claim as stated over every compatible state. -/
theorem c6_counterexample :
    compatableWithS 4294901760 = true ∧
    ¬ (extractS (registerS 4294901760).1 = extractS 4294901760 + 1 ∧
       extractX (registerS 4294901760).1 = extractX 4294901760 ∧
       extractIS (registerS 4294901760).1 = extractIS 4294901760 ∧
       extractIX (registerS 4294901760).1 = extractIX 4294901760) := by decide

/-- C6 (amended): when an acquire of mode M proceeds from a state
compatible with M *whose M counter is below 65535*, the resulting state
has M's counter incremented by exactly one and the other three counters
unchanged. -/
theorem c6_acquire_frame (w : Nat) (hw : w < 2 ^ 64) :
    (compatableWithX w = true → extractX w < 65535 →
      extractX (registerX w).1 = extractX w + 1 ∧
      extractS (registerX w).1 = extractS w ∧
      extractIS (registerX w).1 = extractIS w ∧
      extractIX (registerX w).1 = extractIX w) ∧
    (compatableWithS w = true → extractS w < 65535 →
      extractS (registerS w).1 = extractS w + 1 ∧
      extractX (registerS w).1 = extractX w ∧
      extractIS (registerS w).1 = extractIS w ∧
      extractIX (registerS w).1 = extractIX w) ∧
    (compatableWithIS w = true → extractIS w < 65535 →
      extractIS (registerIS w).1 = extractIS w + 1 ∧
      extractX (registerIS w).1 = extractX w ∧
      extractS (registerIS w).1 = extractS w ∧
      extractIX (registerIS w).1 = extractIX w) ∧
    (compatableWithIX w = true → extractIX w < 65535 →
      extractIX (registerIX w).1 = extractIX w + 1 ∧
      extractX (registerIX w).1 = extractX w ∧
      extractS (registerIX w).1 = extractS w ∧
      extractIS (registerIX w).1 = extractIS w) := by
  refine ⟨?_, ?_, ?_, ?_⟩ <;> intro hc hb
  · exact setX_extracts w (extractX w + 1) hw (by omega)
  · exact setS_extracts w (extractS w + 1) hw (by omega)
  · exact setIS_extracts w (extractIS w + 1) hw (by omega)
  · exact setIX_extracts w (extractIX w + 1) hw (by omega)

theorem c6_acquire_frame_witness :
    extractX (registerX 0).1 = extractX 0 + 1 ∧
    extractS (registerX 0).1 = extractS 0 ∧
    extractIS (registerX 0).1 = extractIS 0 ∧
    extractIX (registerX 0).1 = extractIX 0 :=
  (c6_acquire_frame 0 (by norm_num)).1 (by decide) (by decide)

/-- C9 counterexample: with the IS counter at 65535 (and X held, so the
state is incompatible with IS), the register step does not increment the
IS counter by one: the 16-bit field wraps to 0, refuting the claim's
unconditional by-exactly-one increment. -/
theorem c9_counterexample :
    compatableWithIS 281470681743361 = false ∧
    extractIS (registerIS 281470681743361).1 ≠
      extractIS 281470681743361 + 1 := by decide

/-- C9 (amended): the internal register step updates the word and
returns its compatibility verdict computed on the state observed
*before* the increment; whenever the mode's counter is below 65535 the
increment adds exactly one to that counter — whether or not the state is
compatible with the mode — and leaves the other counters unchanged.
(At a counter of 65535 the 16-bit field wraps, see the counterexample.)
Registration is thus applied to the shared word before the caller learns
its own compatibility. -/
theorem c9_register_semantics (w : Nat) (hw : w < 2 ^ 64) :
    ((registerX w).2 = compatableWithX w ∧
      (extractX w < 65535 →
        extractX (registerX w).1 = extractX w + 1 ∧
        extractS (registerX w).1 = extractS w ∧
        extractIS (registerX w).1 = extractIS w ∧
        extractIX (registerX w).1 = extractIX w)) ∧
    ((registerS w).2 = compatableWithS w ∧
      (extractS w < 65535 →
        extractS (registerS w).1 = extractS w + 1 ∧
        extractX (registerS w).1 = extractX w ∧
        extractIS (registerS w).1 = extractIS w ∧
        extractIX (registerS w).1 = extractIX w)) ∧
    ((registerIS w).2 = compatableWithIS w ∧
      (extractIS w < 65535 →
        extractIS (registerIS w).1 = extractIS w + 1 ∧
        extractX (registerIS w).1 = extractX w ∧
        extractS (registerIS w).1 = extractS w ∧
        extractIX (registerIS w).1 = extractIX w)) ∧
    ((registerIX w).2 = compatableWithIX w ∧
      (extractIX w < 65535 →
        extractIX (registerIX w).1 = extractIX w + 1 ∧
        extractX (registerIX w).1 = extractX w ∧
        extractS (registerIX w).1 = extractS w ∧
        extractIS (registerIX w).1 = extractIS w)) := by
  refine ⟨⟨rfl, ?_⟩, ⟨rfl, ?_⟩, ⟨rfl, ?_⟩, ⟨rfl, ?_⟩⟩ <;> intro hb
  · exact setX_extracts w (extractX w + 1) hw (by omega)
  · exact setS_extracts w (extractS w + 1) hw (by omega)
  · exact setIS_extracts w (extractIS w + 1) hw (by omega)
  · exact setIX_extracts w (extractIX w + 1) hw (by omega)

theorem c9_register_semantics_witness :
    (registerIX 1).2 = compatableWithIX 1 ∧
    (extractIX 1 < 65535 →
      extractIX (registerIX 1).1 = extractIX 1 + 1 ∧
      extractX (registerIX 1).1 = extractX 1 ∧
      extractS (registerIX 1).1 = extractS 1 ∧
      extractIS (registerIX 1).1 = extractIS 1) :=
  (c9_register_semantics 1 (by norm_num)).2.2.2

/-- C10: compatibility is monotone under release.  For every word
satisfying the counter invariants, if a requested mode is compatible
then it remains compatible after the release step of any mode whose
counter is at least 1: a release never invalidates a waiter that has
observed compatibility. -/
theorem c10_release_monotone (w : Nat) (hw : w < 2 ^ 64)
    (hinv : WordInvariant w) (m n : Mode) (hn : 1 ≤ extractMode n w)
    (hm : compatMode m w = true) :
    compatMode m (unlockMode n w).1 = true := by
  cases n with
  | X =>
    simp only [extractMode] at hn
    have ha := extractX_lt w
    have hval : usub1 (extractX w) = extractX w - 1 := by
      unfold usub1; omega
    have hfst : (unlockMode Mode.X w).1 = setX w (extractX w - 1) := by
      show setX w (usub1 (extractX w)) = _
      rw [hval]
    rw [hfst, setX_eq w _ hw (by omega)]
    cases m <;>
      simp only [compatMode, compatableWithX, compatableWithS,
        compatableWithIX, compatableWithIS, Bool.and_eq_true, beq_iff_eq,
        extractX_eq, extractS_eq, extractIS_eq, extractIX_eq] at hm ⊢ <;>
      omega
  | S =>
    simp only [extractMode] at hn
    have ha := extractS_lt w
    have hval : usub1 (extractS w) = extractS w - 1 := by
      unfold usub1; omega
    have hfst : (unlockMode Mode.S w).1 = setS w (extractS w - 1) := by
      show setS w (usub1 (extractS w)) = _
      rw [hval]
    rw [hfst, setS_eq w _ hw (by omega)]
    cases m <;>
      simp only [compatMode, compatableWithX, compatableWithS,
        compatableWithIX, compatableWithIS, Bool.and_eq_true, beq_iff_eq,
        extractX_eq, extractS_eq, extractIS_eq, extractIX_eq] at hm ⊢ <;>
      omega
  | IX =>
    simp only [extractMode] at hn
    have ha := extractIX_lt w
    have hval : usub1 (extractIX w) = extractIX w - 1 := by
      unfold usub1; omega
    have hfst : (unlockMode Mode.IX w).1 = setIX w (extractIX w - 1) := by
      show setIX w (usub1 (extractIX w)) = _
      rw [hval]
    rw [hfst, setIX_eq w _ hw (by omega)]
    cases m <;>
      simp only [compatMode, compatableWithX, compatableWithS,
        compatableWithIX, compatableWithIS, Bool.and_eq_true, beq_iff_eq,
        extractX_eq, extractS_eq, extractIS_eq, extractIX_eq] at hm ⊢ <;>
      omega
  | IS =>
    simp only [extractMode] at hn
    have ha := extractIS_lt w
    have hval : usub1 (extractIS w) = extractIS w - 1 := by
      unfold usub1; omega
    have hfst : (unlockMode Mode.IS w).1 = setIS w (extractIS w - 1) := by
      show setIS w (usub1 (extractIS w)) = _
      rw [hval]
    rw [hfst, setIS_eq w _ hw (by omega)]
    cases m <;>
      simp only [compatMode, compatableWithX, compatableWithS,
        compatableWithIX, compatableWithIS, Bool.and_eq_true, beq_iff_eq,
        extractX_eq, extractS_eq, extractIS_eq, extractIX_eq] at hm ⊢ <;>
      omega

theorem c10_release_monotone_witness :
    compatMode Mode.IS (unlockMode Mode.IS 4294967296).1 = true :=
  c10_release_monotone 4294967296 (by norm_num)
    (by refine ⟨by decide, by decide, by decide, by decide, by decide⟩)
    Mode.IS Mode.IS (by decide) (by decide)

end ILock
